import Mathlib

/-!
Shallow embedding of the subsync synchronization core (subsync/media.py).

The code is translated into Lean as follows: Python floats that only ever
hold exactly representable ratios of the fixed constants are modelled by
rationals; the log-loss scoring, which involves logarithms, is modelled over
the reals.  Fallible Python code (raising exceptions) is modelled with
Except or Option results.  External collaborators (librosa, the transcoder,
the keras predictor, sklearn log loss, pysrt persistence) are modelled at
the interface granularity the source uses them.
-/

namespace Subsync

/-- Sample rate of the transcoded audio stream (Media.FREQ = 16000). -/
def FREQ : ℚ := 16000

/-- Samples per analysis hop (Media.HOP_LEN = 512.0). -/
def HOP_LEN : ℚ := 512

/-- Seconds covered by one mfcc frame (Media.LEN_MFCC = HOP_LEN / FREQ). -/
def LEN_MFCC : ℚ := HOP_LEN / FREQ

/-- Python round applied to a rational: round half to even. -/
def pythonRound (q : ℚ) : ℤ :=
  if q - ⌊q⌋ < 1/2 then ⌊q⌋
  else if 1/2 < q - ⌊q⌋ then ⌊q⌋ + 1
  else if ⌊q⌋ % 2 = 0 then ⌊q⌋ else ⌊q⌋ + 1

/-- Python int() applied to a rational: truncation toward zero. -/
def intOfRat (q : ℚ) : ℤ := if 0 ≤ q then ⌊q⌋ else ⌈q⌉

/-- A pysrt SubRipTime value: hours, minutes, seconds, milliseconds.  Times
parsed from an srt file are nonnegative, hence natural number fields. -/
structure SubTime where
  hours : ℕ
  minutes : ℕ
  seconds : ℕ
  milliseconds : ℕ
deriving DecidableEq

/-- One subtitle entry; the text payload is irrelevant to synchronization
and is omitted.  Field stop is the entry attribute named end in the source
(end is a reserved word in Lean). -/
structure SubEntry where
  start : SubTime
  stop : SubTime
deriving DecidableEq

/-- timeToSec from media.py: total seconds of a timestamp, milliseconds
first, with unit weights 1/1000, 1, 60, 3600. -/
def timeToSec (t : SubTime) : ℚ :=
  (t.milliseconds : ℚ) / 1000 + t.seconds + t.minutes * 60 + t.hours * 60 * 60

/-- Seconds to frame index: round(sec / (hop_len / freq)).  This is the body
of timeToPos from media.py after timeToSec has been applied. -/
def posOfSeconds (s : ℚ) : ℤ := pythonRound (s / (HOP_LEN / FREQ))

/-- timeToPos from media.py: frame index of a timestamp. -/
def timeToPos (t : SubTime) : ℤ := posOfSeconds (timeToSec t)

/-- secondsToBlocks from media.py: int(float(s) / (hop_len / freq)). -/
def secondsToBlocks (s : ℚ) : ℤ := intOfRat (s / (HOP_LEN / FREQ))

/-- blocksToSeconds from media.py: float(h) * (hop_len / freq). -/
def blocksToSeconds (h : ℚ) : ℚ := h * (HOP_LEN / FREQ)

/-- Supported media container extensions (Media.FORMATS). -/
def FORMATS : List String := [".mkv", ".mp4", ".wmv", ".avi", ".flv"]

/-- Kinds of Python exceptions the modelled code can raise. -/
inductive PyErr where
  | valueError (msg : String)
  | runtimeError (msg : String)
  | typeError
  | indexError
  | externalError
deriving DecidableEq

/-- Index of the last occurrence of a character in a list, -1 when absent:
the behaviour of str.rfind used by os.path.splitext. -/
def lastIndexOf (c : Char) (cs : List Char) : ℤ :=
  (cs.foldl (fun st ch => (st.1 + 1, if ch = c then st.1 else st.2))
    ((0 : ℤ), (-1 : ℤ))).2

/-- os.path.splitext for posix paths: split off the extension at the last
dot of the last path component, unless that component consists only of
leading dots up to that position. -/
def splitext (p : String) : String × String :=
  let cs := p.toList
  let sepIndex := lastIndexOf '/' cs
  let dotIndex := lastIndexOf '.' cs
  if sepIndex < dotIndex then
    if ((cs.drop (sepIndex + 1).toNat).take (dotIndex - sepIndex - 1).toNat).any
        (fun ch => ch != '.') then
      (String.mk (cs.take dotIndex.toNat), String.mk (cs.drop dotIndex.toNat))
    else (p, "")
  else (p, "")

/-- os.path.basename for posix paths: everything after the last slash. -/
def basename (p : String) : String :=
  String.mk (p.toList.drop ((lastIndexOf '/' p.toList) + 1).toNat)

/-- The value of the mfcc attribute of a Media object.  Before the mfcc
method has been invoked, attribute lookup finds the bound method defined on
the class; after a successful invocation the instance attribute holds the
feature matrix.  The source tests the attribute against None, a value the
attribute never takes in the repository. -/
inductive MediaMfcc where
  | pyNone
  | boundMethod
  | matrix (m : List (List ℝ))

/-- State of a Media object: fields set by Media.__init__ plus the current
value of the mfcc attribute. -/
structure MediaState where
  filepath : String
  filename : String
  extension : String
  mfccAttr : MediaMfcc

/-- Media.__init__ from media.py: split the extension, reject unsupported
extensions with ValueError, otherwise record filepath, base name of the
splitext stem, and extension.  A fresh object has the bound method as its
mfcc attribute. -/
def mediaInit (filepath : String) : Except PyErr MediaState :=
  let stem := (splitext filepath).1
  let ext := (splitext filepath).2
  if ext ∈ FORMATS then
    .ok ⟨filepath, basename stem, ext, .boundMethod⟩
  else
    .error (.valueError ("filetype " ++ ext ++ " not supported"))

/-- Result of a run of Media.mfcc: the returned value or the propagated
exception, together with whether the temporary transcoded audio file still
exists on disk when the call has ended. -/
structure MfccOutcome where
  result : Except PyErr (List (List ℝ))
  tempFileExists : Bool

/-- Media.mfcc from media.py, with the two external steps (librosa.load and
librosa.feature.mfcc) abstracted by flags saying whether they succeed, and
the produced feature matrix abstracted by a parameter.  transcode.run()
writes the temporary audio file; os.remove(transcode.output) is executed
only after both external steps have returned, because the source has no
try/finally around them: an exception propagates before the removal. -/
def mfccRun (loadOk featOk : Bool) (m : List (List ℝ)) : MfccOutcome :=
  if loadOk = false then ⟨.error .externalError, true⟩
  else if featOk = false then ⟨.error .externalError, true⟩
  else ⟨.ok m, false⟩

/-- Frame index of the start of a subtitle entry, as used by the loop in
Subtitle.labels (start = timeToPos(sub.start)).  Times of parsed entries are
nonnegative, so the conversion to a natural number preserves the value. -/
def startFrame (sub : SubEntry) : ℕ := (timeToPos sub.start).toNat

/-- One past the last marked frame of an entry (end = timeToPos(sub.end)+1),
the exclusive bound of range(start, end) in Subtitle.labels. -/
def stopFrame (sub : SubEntry) : ℕ := (timeToPos sub.stop).toNat + 1

/-- The inner loop of Subtitle.labels for one entry: for i in range(s, e),
if i < len(labels) then labels[i] = 1.  List.set is the identity out of
range, exactly the guarded assignment of the source. -/
def markSub (lab : List ℝ) (s e : ℕ) : List ℝ :=
  (List.range' s (e - s)).foldl (fun acc i => acc.set i 1) lab

/-- The label construction of Subtitle.labels, given the frame count taken
from len(mfcc[0]): start from np.zeros(samples) and mark every entry. -/
def labelsCore (samples : ℕ) (subs : List SubEntry) : List ℝ :=
  subs.foldl (fun lab sub => markSub lab (startFrame sub) (stopFrame sub))
    (List.replicate samples 0)

/-- Subtitle.labels from media.py.  The source first tests the mfcc
attribute of the media object against None; a fresh Media carries the bound
method there, which is not None, so the guard falls through and the
subsequent subscription of the attribute raises TypeError.  With an mfcc
matrix present, samples = len(mfcc[0]). -/
def labelsRun (mm : MediaMfcc) (subs : List SubEntry) : Except PyErr (List ℝ) :=
  match mm with
  | .pyNone => .error (.runtimeError "Must analyse mfcc before generating labels")
  | .boundMethod => .error .typeError
  | .matrix [] => .error .indexError
  | .matrix (r0 :: _) => .ok (labelsCore r0.length subs)

/-- Probability clipping threshold of the external log loss scorer. -/
noncomputable def eps : ℝ := 1 / 10 ^ 15

/-- Clip a probability into the closed interval from eps to 1 - eps. -/
noncomputable def clip (p : ℝ) : ℝ := max eps (min (1 - eps) p)

/-- Mean binary cross entropy of a label list against a probability list,
with standard probability clipping.  Modelled from the spec: the external
scorer sklearn.metrics.log_loss is not part of the repository; the spec
describes it as log loss (binary cross entropy) with standard clipping. -/
noncomputable def bceVal (ytrue ypred : List ℝ) : ℝ :=
  -((List.zipWith
      (fun y p => y * Real.log (clip p) + (1 - y) * Real.log (1 - clip p))
      ytrue ypred).sum / ytrue.length)

/-- The external log loss call as used by the source: it fails (raises) on
an empty sample list or on mismatched lengths, and otherwise returns the
mean clipped binary cross entropy. -/
noncomputable def logLossFn (ytrue ypred : List ℝ) : Option ℝ :=
  if ytrue.length = 0 ∨ ytrue.length ≠ ypred.length then none
  else some (bceVal ytrue ypred)

/-- np.roll: cyclic rotation keeping the length; element j of the result is
element (j - k) mod n of the input. -/
def roll (k : ℤ) (xs : List α) : List α :=
  if xs.length = 0 then xs
  else
    let r := (k % (xs.length : ℤ)).toNat
    xs.drop (xs.length - r) ++ xs.take (xs.length - r)

/-- The Python slice xs[b:-b]: drop b elements at each end; empty when b is
zero (because -0 is 0) or when the list has at most 2*b elements. -/
def coreSlice (b : ℕ) (xs : List α) : List α :=
  if b = 0 then [] else (xs.take (xs.length - b)).drop b

/-- The candidate offsets enumerated by Subtitle.logloss: range(-b, b) in
iteration order. -/
def offsetList (b : ℕ) : List ℤ :=
  (List.range (2 * b)).map (fun i : ℕ => -(b : ℤ) + (i : ℤ))

/-- Subtitle.logloss from media.py: blocks = secondsToBlocks(margin); for
each offset in range(-blocks, blocks), roll the label sequence by the
offset and score the trimmed cores with the external log loss; none models
an exception propagating out of any scoring call. -/
noncomputable def logloss (pred actual : List ℝ) (margin : ℚ) :
    Option (List ℤ × List ℝ) :=
  let b := (secondsToBlocks margin).toNat
  match (offsetList b).mapM
      (fun off => logLossFn (coreSlice b (roll off actual)) (coreSlice b pred)) with
  | none => none
  | some y => some (offsetList b, y)

/-- np.mean of a list of reals. -/
noncomputable def npMean (y : List ℝ) : ℝ := y.sum / y.length

/-- np.std of a list of reals: population standard deviation. -/
noncomputable def npStd (y : List ℝ) : ℝ :=
  Real.sqrt ((y.map (fun v => (v - npMean y) ^ 2)).sum / y.length)

/-- np.min of a list of reals (left to right reduction; 0 on the empty
list, on which numpy raises instead — callers guard that case). -/
noncomputable def npMin : List ℝ → ℝ
  | [] => 0
  | [a] => a
  | a :: b :: t => min a (npMin (b :: t))

/-- np.argmin of a list of reals: index of the first occurrence of the
minimum. -/
noncomputable def npArgmin : List ℝ → ℕ
  | [] => 0
  | [_] => 0
  | a :: b :: t => if a ≤ npMin (b :: t) then 0 else npArgmin (b :: t) + 1

/-- A subtitle entry after the bulk shift performed by pysrt on save:
timestamps in seconds. -/
structure ShiftedEntry where
  startSec : ℚ
  stopSec : ℚ
deriving DecidableEq

/-- The bulk shift self.subs.shift(seconds=secs): every timestamp of every
entry moves by secs seconds. -/
def shiftSubs (subs : List SubEntry) (secs : ℚ) : List ShiftedEntry :=
  subs.map (fun e => ⟨timeToSec e.start + secs, timeToSec e.stop + secs⟩)

/-- Outcome of Subtitle.sync: fail models an uncaught exception, rejected
is the silent no-write outcome of the safe gate, and written records the
applied shift in seconds, the persisted entries and the encoding passed to
save. -/
inductive SyncOutcome where
  | fail
  | rejected
  | written (secs : ℚ) (entries : List ShiftedEntry) (encoding : String)

/-- Decision part of Subtitle.sync once the offset and loss curves exist:
np.min, np.mean, np.std on an empty curve raise, accept is computed as
min(y) < mean(y) - std(y) when safe and is otherwise True, and acceptance
shifts by blocksToSeconds(x[np.argmin(y)]) and saves with encoding utf-8. -/
noncomputable def syncGate (x : List ℤ) (y : List ℝ) (subs : List SubEntry)
    (safe : Bool) : SyncOutcome :=
  if y.length = 0 then .fail
  else if safe = true ∧ ¬ (npMin y < npMean y - npStd y) then .rejected
  else
    let secs := blocksToSeconds ((x.getD (npArgmin y) 0 : ℤ) : ℚ)
    .written secs (shiftSubs subs secs) "utf-8"

/-- Subtitle.sync after the label sequence has been computed: score the
curves and decide. -/
noncomputable def syncCore (lab : List ℝ) (subs : List SubEntry)
    (pred : List ℝ) (safe : Bool) (margin : ℚ) : SyncOutcome :=
  match logloss pred lab margin with
  | none => .fail
  | some (x, y) => syncGate x y subs safe

/-- Subtitle.sync from media.py.  The prediction sequence produced by the
opaque net.predict call is a parameter; plotting is presentation only and
not modelled.  labels() is invoked first and its exceptions propagate. -/
noncomputable def sync (mm : MediaMfcc) (subs : List SubEntry)
    (pred : List ℝ) (safe : Bool) (margin : ℚ) : SyncOutcome :=
  match labelsRun mm subs with
  | .error _ => .fail
  | .ok lab => syncCore lab subs pred safe margin

lemma pythonRound_intCast (n : ℤ) : pythonRound (n : ℚ) = n := by
  unfold pythonRound
  rw [Int.floor_intCast]
  norm_num

lemma roll_length (k : ℤ) (xs : List α) : (roll k xs).length = xs.length := by
  unfold roll
  split
  · rfl
  · rename_i h
    have hpos : (0 : ℤ) < (xs.length : ℤ) := by
      exact_mod_cast Nat.pos_of_ne_zero h
    have h1 : 0 ≤ k % (xs.length : ℤ) := Int.emod_nonneg k (ne_of_gt hpos)
    have h2 : k % (xs.length : ℤ) < (xs.length : ℤ) := Int.emod_lt_of_pos k hpos
    have hr : (k % (xs.length : ℤ)).toNat ≤ xs.length := by omega
    simp only [List.length_append, List.length_drop, List.length_take]
    rw [Nat.min_eq_left (Nat.sub_le _ _)]
    omega

lemma coreSlice_length (b : ℕ) (hb : 1 ≤ b) (xs : List α) :
    (coreSlice b xs).length = xs.length - b - b := by
  unfold coreSlice
  rw [if_neg (by omega)]
  simp only [List.length_drop, List.length_take]
  rw [Nat.min_eq_left (Nat.sub_le _ _)]

lemma roll_replicate (k : ℤ) (n : ℕ) (a : α) :
    roll k (List.replicate n a) = List.replicate n a := by
  unfold roll
  split
  · rfl
  · rename_i h
    rw [List.length_replicate] at h
    have hpos : (0 : ℤ) < (n : ℤ) := by exact_mod_cast Nat.pos_of_ne_zero h
    have h1 : 0 ≤ k % (n : ℤ) := Int.emod_nonneg k (ne_of_gt hpos)
    have h2 : k % (n : ℤ) < (n : ℤ) := Int.emod_lt_of_pos k hpos
    have hr : (k % (n : ℤ)).toNat ≤ n := by omega
    simp only [List.length_replicate, List.drop_replicate, List.take_replicate,
      ← List.replicate_add]
    congr 1
    rw [Nat.min_eq_left (Nat.sub_le _ _)]
    omega

lemma mapM_eq_some_map (f : α → Option β) (g : α → β) :
    ∀ l : List α, (∀ a ∈ l, f a = some (g a)) → l.mapM f = some (l.map g) := by
  intro l
  induction l with
  | nil => intro _; rfl
  | cons a t ih =>
    intro h
    rw [List.mapM_cons, h a (by simp), ih (fun x hx => h x (by simp [hx])),
      List.map_cons]
    rfl

lemma mapM_cons_none (f : α → Option β) (a : α) (t : List α)
    (h : f a = none) : (a :: t).mapM f = none := by
  rw [List.mapM_cons, h]
  rfl

lemma blocksOfTwelve : (secondsToBlocks 12).toNat = 375 := by
  norm_num [secondsToBlocks, intOfRat, HOP_LEN, FREQ]
  decide

lemma blocksOfSmall : (secondsToBlocks (8 / 125)).toNat = 2 := by
  norm_num [secondsToBlocks, intOfRat, HOP_LEN, FREQ]
  decide

lemma blocksOfZero : (secondsToBlocks 0).toNat = 0 := by
  norm_num [secondsToBlocks, intOfRat, HOP_LEN, FREQ]

lemma map_eq_replicate (f : α → β) (c : β) :
    ∀ l : List α, (∀ a ∈ l, f a = c) → l.map f = List.replicate l.length c := by
  intro l
  induction l with
  | nil => intro _; rfl
  | cons a t ih =>
    intro h
    rw [List.map_cons, h a (by simp), ih (fun x hx => h x (by simp [hx])),
      List.length_cons, List.replicate_succ]

lemma logloss_eq (pred actual : List ℝ) (margin : ℚ)
    (hlen : pred.length = actual.length)
    (hN : 2 * (secondsToBlocks margin).toNat < actual.length) :
    logloss pred actual margin =
      some (offsetList (secondsToBlocks margin).toNat,
        (offsetList (secondsToBlocks margin).toNat).map
          (fun off => bceVal
            (coreSlice (secondsToBlocks margin).toNat (roll off actual))
            (coreSlice (secondsToBlocks margin).toNat pred))) := by
  have hmm : ∀ off ∈ offsetList (secondsToBlocks margin).toNat,
      logLossFn (coreSlice (secondsToBlocks margin).toNat (roll off actual))
        (coreSlice (secondsToBlocks margin).toNat pred) =
      some (bceVal (coreSlice (secondsToBlocks margin).toNat (roll off actual))
        (coreSlice (secondsToBlocks margin).toNat pred)) := by
    intro off hoff
    rcases Nat.eq_zero_or_pos (secondsToBlocks margin).toNat with hb | hb
    · exfalso
      rw [hb] at hoff
      simp [offsetList] at hoff
    · unfold logLossFn
      rw [if_neg]
      push_neg
      constructor
      · rw [coreSlice_length _ hb, roll_length]
        omega
      · rw [coreSlice_length _ hb, coreSlice_length _ hb, roll_length, hlen]
  simp only [logloss]
  rw [mapM_eq_some_map _ _ _ hmm]

/-- C7: for any nonnegative integer number of frames h, converting h to
seconds with blocksToSeconds and converting that time back to a frame index
with round(seconds / (hop_length/sample_rate)) yields h again. -/
theorem claim7 (h : ℕ) : posOfSeconds (blocksToSeconds (h : ℚ)) = (h : ℤ) := by
  unfold posOfSeconds blocksToSeconds
  have hc : (HOP_LEN / FREQ : ℚ) ≠ 0 := by norm_num [HOP_LEN, FREQ]
  rw [mul_div_assoc, div_self hc, mul_one]
  exact_mod_cast pythonRound_intCast (h : ℤ)

/-- C4 as stated is false: when the load step of Media.mfcc raises, the
temporary audio file produced by the transcoder survives the call, because
the source removes it only after both external steps have returned. -/
theorem claim4_cex : (mfccRun false true [[(0 : ℝ)]]).tempFileExists = true := rfl

/-- C4 amended: the temporary audio file is gone after Media.mfcc exactly
when both the load step and the feature step succeed; on every failure path
the exception propagates before os.remove and the file survives. -/
theorem claim4 (loadOk featOk : Bool) (m : List (List ℝ)) :
    (mfccRun loadOk featOk m).tempFileExists = false ↔
      loadOk = true ∧ featOk = true := by
  cases loadOk <;> cases featOk <;> simp [mfccRun]

/-- C5: on a freshly constructed Media the mfcc attribute is the bound
method, which is not None, so the RuntimeError guard of Subtitle.labels
never fires and the call instead raises TypeError when it subscripts the
method.  The code contradicts the precondition error its own message
announces. -/
theorem claim5 : ∃ m : MediaState, mediaInit "movie.mkv" = .ok m ∧
    m.mfccAttr = .boundMethod ∧
    (∀ subs, labelsRun m.mfccAttr subs = .error .typeError) ∧
    (∀ msg, PyErr.typeError ≠ PyErr.runtimeError msg) := by
  refine ⟨⟨"movie.mkv", "movie", ".mkv", .boundMethod⟩, ?_, rfl, fun _ => rfl,
    fun msg h => ?_⟩
  · rfl
  · cases h

/-- C8: Media construction fails with a ValueError exactly when the
extension computed by splitext lies outside the closed five element format
list (membership is case sensitive string equality); on success the
filepath, base name and extension fields are set from the input and the
mfcc attribute is still the bound method, so no featurization has
happened. -/
theorem claim8 (filepath : String) :
    FORMATS.length = 5 ∧
    ((splitext filepath).2 ∉ FORMATS →
      mediaInit filepath =
        .error (.valueError ("filetype " ++ (splitext filepath).2 ++
          " not supported"))) ∧
    ((splitext filepath).2 ∈ FORMATS →
      mediaInit filepath =
        .ok ⟨filepath, basename (splitext filepath).1, (splitext filepath).2,
          .boundMethod⟩) := by
  refine ⟨rfl, ?_, ?_⟩
  · intro h
    simp only [mediaInit]
    rw [if_neg h]
  · intro h
    simp only [mediaInit]
    rw [if_pos h]

/-- Witness for C8 at concrete inputs: a supported and an unsupported
extension. -/
theorem claim8_witness :
    mediaInit "dir/movie.mkv" =
      .ok ⟨"dir/movie.mkv", "movie", ".mkv", .boundMethod⟩ ∧
    mediaInit "movie.wav" =
      .error (.valueError ("filetype " ++ ".wav" ++ " not supported")) :=
  ⟨(claim8 "dir/movie.mkv").2.2 (by decide),
   (claim8 "movie.wav").2.1 (by decide)⟩

/-- C10 as stated is false at the margin 0 corner: blocks is then 0, the
offset loop is empty, and Subtitle.logloss returns two empty arrays instead
of failing, although the sequence length 0 does not exceed 2 * blocks. -/
theorem claim10_cex : logloss [] [] 0 = some ([], []) := by
  simp only [logloss, blocksOfZero]
  rfl

/-- C10 amended: whenever the margin yields at least one block, every
pred/actual pair whose label sequence has length at most 2 * blocks makes
the trimmed core slices empty, so the first scoring call fails and
Subtitle.logloss propagates the failure instead of returning a value. -/
theorem claim10 (pred actual : List ℝ) (margin : ℚ)
    (hb : 1 ≤ (secondsToBlocks margin).toNat)
    (hshort : actual.length ≤ 2 * (secondsToBlocks margin).toNat) :
    logloss pred actual margin = none := by
  have hne : offsetList (secondsToBlocks margin).toNat ≠ [] := by
    have hlen0 : (offsetList (secondsToBlocks margin).toNat).length =
        2 * (secondsToBlocks margin).toNat := by
      simp [offsetList]
    intro hnil
    rw [hnil] at hlen0
    simp at hlen0
    omega
  have hall : ∀ off : ℤ, logLossFn
      (coreSlice (secondsToBlocks margin).toNat (roll off actual))
      (coreSlice (secondsToBlocks margin).toNat pred) = none := by
    intro off
    unfold logLossFn
    rw [if_pos]
    left
    rw [coreSlice_length _ hb, roll_length]
    omega
  obtain ⟨a, t, hat⟩ := List.exists_cons_of_ne_nil hne
  have hmapM : (offsetList (secondsToBlocks margin).toNat).mapM
      (fun off => logLossFn
        (coreSlice (secondsToBlocks margin).toNat (roll off actual))
        (coreSlice (secondsToBlocks margin).toNat pred)) = none := by
    rw [hat]
    exact mapM_cons_none _ _ _ (hall a)
  simp only [logloss]
  rw [hmapM]

/-- Witness for C10 at a concrete short input: one frame of audio against
the default margin of 12 seconds (375 blocks). -/
theorem claim10_witness :
    1 ≤ (secondsToBlocks 12).toNat ∧
    ([(0 : ℝ)]).length ≤ 2 * (secondsToBlocks 12).toNat ∧
    logloss [(1 / 2 : ℝ)] [(0 : ℝ)] 12 = none :=
  ⟨by rw [blocksOfTwelve]; decide, by rw [blocksOfTwelve]; decide,
   claim10 _ _ _ (by rw [blocksOfTwelve]; decide)
     (by rw [blocksOfTwelve]; decide)⟩

/-- C1: with a nonnegative margin and equally long prediction and label
sequences long enough for a nonempty trimmed core, Subtitle.logloss
returns exactly 2 * blocks offset/loss pairs, the offsets are
-blocks, -blocks+1, ..., blocks-1 in that order, and the loss at position i
is the clipped binary cross entropy between the label sequence cyclically
rolled by the i-th offset and the unrolled predictions, both restricted to
the trimmed core slice. -/
theorem claim1 (pred actual : List ℝ) (margin : ℚ)
    (hm : 0 ≤ margin)
    (hlen : pred.length = actual.length)
    (hN : 2 * (secondsToBlocks margin).toNat < actual.length) :
    ∃ x y, logloss pred actual margin = some (x, y) ∧
      x.length = 2 * (secondsToBlocks margin).toNat ∧
      y.length = 2 * (secondsToBlocks margin).toNat ∧
      ∀ i, i < 2 * (secondsToBlocks margin).toNat →
        x[i]? = some (-(((secondsToBlocks margin).toNat : ℤ)) + i) ∧
        y[i]? = some (bceVal
          (coreSlice (secondsToBlocks margin).toNat
            (roll (-(((secondsToBlocks margin).toNat : ℤ)) + i) actual))
          (coreSlice (secondsToBlocks margin).toNat pred)) := by
  refine ⟨_, _, logloss_eq pred actual margin hlen hN, ?_, ?_, ?_⟩
  · simp [offsetList]
  · simp [offsetList]
  · intro i hi
    constructor
    · simp only [offsetList]
      rw [List.getElem?_map, List.getElem?_range hi]
      rfl
    · rw [List.getElem?_map]
      simp only [offsetList]
      rw [List.getElem?_map, List.getElem?_range hi]
      rfl

/-- Witness for C1: margin 8/125 seconds gives 2 blocks; sequences of
length 5 leave a one frame core. -/
theorem claim1_witness :
    (0 : ℚ) ≤ 8 / 125 ∧
    (List.replicate 5 ((1 : ℝ) / 2)).length = (List.replicate 5 (0 : ℝ)).length ∧
    2 * (secondsToBlocks (8 / 125)).toNat < (List.replicate 5 (0 : ℝ)).length ∧
    (∃ x y, logloss (List.replicate 5 ((1 : ℝ) / 2)) (List.replicate 5 (0 : ℝ))
        (8 / 125) = some (x, y) ∧
      x.length = 2 * (secondsToBlocks (8 / 125)).toNat ∧
      y.length = 2 * (secondsToBlocks (8 / 125)).toNat ∧
      ∀ i, i < 2 * (secondsToBlocks (8 / 125)).toNat →
        x[i]? = some (-(((secondsToBlocks (8 / 125)).toNat : ℤ)) + i) ∧
        y[i]? = some (bceVal
          (coreSlice (secondsToBlocks (8 / 125)).toNat
            (roll (-(((secondsToBlocks (8 / 125)).toNat : ℤ)) + i)
              (List.replicate 5 (0 : ℝ))))
          (coreSlice (secondsToBlocks (8 / 125)).toNat
            (List.replicate 5 ((1 : ℝ) / 2))))) :=
  ⟨by norm_num, by simp, by rw [blocksOfSmall]; decide,
   claim1 _ _ _ (by norm_num) (by simp) (by rw [blocksOfSmall]; decide)⟩

lemma mem_range'_iff (s n m : ℕ) : m ∈ List.range' s n ↔ s ≤ m ∧ m < s + n := by
  rw [List.mem_range']
  constructor
  · rintro ⟨i, hi, rfl⟩
    omega
  · intro h
    exact ⟨m - s, by omega, by omega⟩

lemma foldl_set_length : ∀ (idxs : List ℕ) (l : List ℝ),
    (idxs.foldl (fun acc j => acc.set j 1) l).length = l.length := by
  intro idxs
  induction idxs with
  | nil => intro l; rfl
  | cons a t ih =>
    intro l
    rw [List.foldl_cons, ih, List.length_set]

lemma foldl_set_getElem? : ∀ (idxs : List ℕ) (l : List ℝ) (i : ℕ),
    (idxs.foldl (fun acc j => acc.set j 1) l)[i]? =
      if i ∈ idxs ∧ i < l.length then some 1 else l[i]? := by
  intro idxs
  induction idxs with
  | nil =>
    intro l i
    simp
  | cons a t ih =>
    intro l i
    rw [List.foldl_cons, ih, List.getElem?_set, List.length_set]
    by_cases hit : i ∈ t ∧ i < l.length
    · rw [if_pos hit, if_pos ⟨by simp [hit.1], hit.2⟩]
    · rw [if_neg hit]
      by_cases hia : a = i
      · subst hia
        by_cases hal : a < l.length
        · rw [if_pos rfl, if_pos hal, if_pos ⟨by simp, hal⟩]
        · rw [if_pos rfl, if_neg hal, if_neg (by tauto),
            List.getElem?_eq_none (by omega)]
      · rw [if_neg hia]
        have : ¬ (i ∈ a :: t ∧ i < l.length) := by
          intro hcon
          rcases List.mem_cons.mp hcon.1 with h1 | h1
          · exact hia h1.symm
          · exact hit ⟨h1, hcon.2⟩
        rw [if_neg this]

lemma markSub_length (l : List ℝ) (s e : ℕ) :
    (markSub l s e).length = l.length :=
  foldl_set_length _ l

lemma markSub_getElem? (l : List ℝ) (s e i : ℕ) :
    (markSub l s e)[i]? =
      if s ≤ i ∧ i < e ∧ i < l.length then some 1 else l[i]? := by
  unfold markSub
  rw [foldl_set_getElem?]
  have hiff : (i ∈ List.range' s (e - s) ∧ i < l.length) ↔
      (s ≤ i ∧ i < e ∧ i < l.length) := by
    rw [mem_range'_iff]
    omega
  rw [if_congr hiff rfl rfl]

lemma labelsFold_length : ∀ (subs : List SubEntry) (l : List ℝ),
    (subs.foldl (fun lab sub => markSub lab (startFrame sub) (stopFrame sub))
      l).length = l.length := by
  intro subs
  induction subs with
  | nil => intro l; rfl
  | cons sub t ih =>
    intro l
    rw [List.foldl_cons, ih, markSub_length]

lemma labelsCore_length (samples : ℕ) (subs : List SubEntry) :
    (labelsCore samples subs).length = samples := by
  unfold labelsCore
  rw [labelsFold_length, List.length_replicate]

lemma labelsFold_getElem? : ∀ (subs : List SubEntry) (l : List ℝ) (i : ℕ),
    (subs.foldl (fun lab sub => markSub lab (startFrame sub) (stopFrame sub))
        l)[i]? =
      if (∃ sub ∈ subs, startFrame sub ≤ i ∧ i < stopFrame sub) ∧ i < l.length
      then some 1 else l[i]? := by
  intro subs
  induction subs with
  | nil =>
    intro l i
    simp
  | cons sub t ih =>
    intro l i
    rw [List.foldl_cons, ih, markSub_length, markSub_getElem?]
    by_cases ht : (∃ s ∈ t, startFrame s ≤ i ∧ i < stopFrame s) ∧ i < l.length
    · rw [if_pos ht, if_pos]
      obtain ⟨⟨s, hs, hsi⟩, hil⟩ := ht
      exact ⟨⟨s, by simp [hs], hsi⟩, hil⟩
    · rw [if_neg ht]
      by_cases hb : startFrame sub ≤ i ∧ i < stopFrame sub ∧ i < l.length
      · rw [if_pos hb, if_pos ⟨⟨sub, by simp, hb.1, hb.2.1⟩, hb.2.2⟩]
      · rw [if_neg hb, if_neg]
        intro hcon
        obtain ⟨⟨s, hs, hsi⟩, hil⟩ := hcon
        rcases List.mem_cons.mp hs with h1 | h1
        · subst h1
          exact hb ⟨hsi.1, hsi.2, hil⟩
        · exact ht ⟨⟨s, h1, hsi⟩, hil⟩

lemma labelsCore_getElem? (samples : ℕ) (subs : List SubEntry) (i : ℕ) :
    (labelsCore samples subs)[i]? =
      if (∃ sub ∈ subs, startFrame sub ≤ i ∧ i < stopFrame sub) ∧ i < samples
      then some 1
      else if i < samples then some 0 else none := by
  unfold labelsCore
  rw [labelsFold_getElem?, List.length_replicate, List.getElem?_replicate]

/-- C6: for a feature matrix whose first row has length N, Subtitle.labels
returns (without raising, for every subtitle list) a zero/one sequence of
length exactly N; position i carries 1 exactly when some entry covers it,
where an entry covers the frames from timeToPos(start) up to and including
timeToPos(end) (the loop bound is timeToPos(end) + 1, exclusive); frame
indices at or beyond N are skipped silently, leaving the length at N. -/
theorem claim6 (r0 : List ℝ) (rest : List (List ℝ)) (subs : List SubEntry) :
    ∃ l, labelsRun (.matrix (r0 :: rest)) subs = .ok l ∧
      l.length = r0.length ∧
      (∀ v ∈ l, v = 0 ∨ v = 1) ∧
      (∀ i, i < r0.length →
        (l[i]? = some 1 ↔
          ∃ sub ∈ subs, (timeToPos sub.start).toNat ≤ i ∧
            i < (timeToPos sub.stop).toNat + 1)) ∧
      (∀ i, r0.length ≤ i → l[i]? = none) := by
  refine ⟨labelsCore r0.length subs, rfl, labelsCore_length _ _, ?_, ?_, ?_⟩
  · intro v hv
    obtain ⟨i, hil, hiv⟩ := List.mem_iff_getElem.mp hv
    have h? : (labelsCore r0.length subs)[i]? = some v :=
      List.getElem?_eq_some_iff.mpr ⟨hil, hiv⟩
    rw [labelsCore_getElem? r0.length subs i] at h?
    split at h?
    · right
      exact (Option.some_injective _ h?).symm
    · split at h?
      · left
        exact (Option.some_injective _ h?).symm
      · cases h?
  · intro i hi
    rw [labelsCore_getElem? r0.length subs i]
    constructor
    · intro h1
      by_contra hno
      rw [if_neg, if_pos hi] at h1
      · have : (0 : ℝ) = 1 := Option.some_injective _ h1
        norm_num at this
      · intro hcon
        exact hno hcon.1
    · intro hcov
      rw [if_pos ⟨hcov, hi⟩]
  · intro i hi
    rw [labelsCore_getElem? r0.length subs i, if_neg (by omega), if_neg (by omega)]

lemma npMin_cons (a b : ℝ) (t : List ℝ) :
    npMin (a :: b :: t) = min a (npMin (b :: t)) := rfl

lemma npArgmin_cons (a b : ℝ) (t : List ℝ) :
    npArgmin (a :: b :: t) =
      if a ≤ npMin (b :: t) then 0 else npArgmin (b :: t) + 1 := rfl

lemma npArgmin_spec : ∀ (l : List ℝ), l ≠ [] →
    npArgmin l < l.length ∧ l[npArgmin l]? = some (npMin l) ∧
    (∀ v ∈ l, npMin l ≤ v) ∧
    (∀ i, i < npArgmin l → ∀ v, l[i]? = some v → npMin l < v) := by
  intro l
  induction l with
  | nil => intro h; exact absurd rfl h
  | cons a t ih =>
    intro _
    cases t with
    | nil =>
      refine ⟨by simp [npArgmin], rfl, ?_, ?_⟩
      · intro v hv
        rw [List.mem_singleton] at hv
        subst hv
        exact le_refl _
      · intro i hi v _
        simp [npArgmin] at hi
    | cons b t2 =>
      obtain ⟨ih1, ih2, ih3, ih4⟩ := ih (by simp)
      by_cases hc : a ≤ npMin (b :: t2)
      · have hmin : npMin (a :: b :: t2) = a := by
          rw [npMin_cons]
          exact min_eq_left hc
        have harg : npArgmin (a :: b :: t2) = 0 := by
          rw [npArgmin_cons, if_pos hc]
        refine ⟨by rw [harg]; simp, by rw [harg, hmin]; rfl, ?_, ?_⟩
        · intro v hv
          rw [hmin]
          rcases List.mem_cons.mp hv with h1 | h1
          · exact le_of_eq h1.symm
          · exact le_trans hc (ih3 v h1)
        · intro i hi v _
          rw [harg] at hi
          omega
      · push_neg at hc
        have hmin : npMin (a :: b :: t2) = npMin (b :: t2) := by
          rw [npMin_cons]
          exact min_eq_right (le_of_lt hc)
        have harg : npArgmin (a :: b :: t2) = npArgmin (b :: t2) + 1 := by
          rw [npArgmin_cons, if_neg (not_le.mpr hc)]
        refine ⟨?_, ?_, ?_, ?_⟩
        · rw [harg, List.length_cons]
          omega
        · rw [harg, hmin, List.getElem?_cons_succ]
          exact ih2
        · intro v hv
          rw [hmin]
          rcases List.mem_cons.mp hv with h1 | h1
          · rw [h1]
            exact le_of_lt hc
          · exact ih3 v h1
        · intro i hi v hv
          rw [harg] at hi
          cases i with
          | zero =>
            rw [List.getElem?_cons_zero] at hv
            have hva : a = v := Option.some_injective _ hv
            rw [hmin, ← hva]
            exact hc
          | succ j =>
            rw [List.getElem?_cons_succ] at hv
            rw [hmin]
            exact ih4 j (by omega) v hv

lemma npMin_replicate_succ (c : ℝ) : ∀ m : ℕ,
    npMin (List.replicate (m + 1) c) = c := by
  intro m
  induction m with
  | zero => rfl
  | succ n ih =>
    rw [List.replicate_succ, List.replicate_succ, npMin_cons,
      ← List.replicate_succ, ih, min_self]

lemma npMin_replicate (c : ℝ) (m : ℕ) (hm : m ≠ 0) :
    npMin (List.replicate m c) = c := by
  obtain ⟨n, rfl⟩ := Nat.exists_eq_succ_of_ne_zero hm
  exact npMin_replicate_succ c n

lemma npMean_replicate (c : ℝ) (m : ℕ) (hm : m ≠ 0) :
    npMean (List.replicate m c) = c := by
  unfold npMean
  rw [List.sum_replicate, List.length_replicate, nsmul_eq_mul, mul_comm,
    mul_div_assoc, div_self (by exact_mod_cast hm), mul_one]

lemma npStd_replicate (c : ℝ) (m : ℕ) (hm : m ≠ 0) :
    npStd (List.replicate m c) = 0 := by
  unfold npStd
  simp only [npMean_replicate c m hm, List.map_replicate, sub_self]
  simp [List.sum_replicate]

lemma sync_matrix (r0 : List ℝ) (rest : List (List ℝ)) (subs : List SubEntry)
    (pred : List ℝ) (safe : Bool) (margin : ℚ) :
    sync (.matrix (r0 :: rest)) subs pred safe margin =
      syncCore (labelsCore r0.length subs) subs pred safe margin := rfl

lemma syncCore_eq (lab : List ℝ) (subs : List SubEntry) (pred : List ℝ)
    (safe : Bool) (margin : ℚ) (x : List ℤ) (y : List ℝ)
    (h : logloss pred lab margin = some (x, y)) :
    syncCore lab subs pred safe margin = syncGate x y subs safe := by
  unfold syncCore
  rw [h]

lemma syncGate_rejected (x : List ℤ) (y : List ℝ) (subs : List SubEntry)
    (hy : y.length ≠ 0) (hrej : ¬ npMin y < npMean y - npStd y) :
    syncGate x y subs true = .rejected := by
  unfold syncGate
  rw [if_neg hy, if_pos ⟨rfl, hrej⟩]

lemma syncGate_written (x : List ℤ) (y : List ℝ) (subs : List SubEntry)
    (safe : Bool) (hy : y.length ≠ 0)
    (hacc : safe = false ∨ npMin y < npMean y - npStd y) :
    syncGate x y subs safe =
      .written (blocksToSeconds ((x.getD (npArgmin y) 0 : ℤ) : ℚ))
        (shiftSubs subs (blocksToSeconds ((x.getD (npArgmin y) 0 : ℤ) : ℚ)))
        "utf-8" := by
  unfold syncGate
  rw [if_neg hy, if_neg]
  intro hcon
  rcases hacc with h | h
  · rw [h] at hcon
    cases hcon.1
  · exact hcon.2 h

/-- C2: under the shape conditions that make Subtitle.sync reach the gate,
safe mode accepts (writes a file) exactly when the minimum of the loss
curve is strictly below mean minus standard deviation, rejecting silently
(producing no write) otherwise, while safe disabled always accepts. -/
theorem claim2 (r0 : List ℝ) (rest : List (List ℝ)) (subs : List SubEntry)
    (pred : List ℝ) (margin : ℚ)
    (hlen : pred.length = r0.length)
    (hb : 1 ≤ (secondsToBlocks margin).toNat)
    (hN : 2 * (secondsToBlocks margin).toNat < r0.length) :
    ∃ x y, logloss pred (labelsCore r0.length subs) margin = some (x, y) ∧
      (npMin y < npMean y - npStd y →
        ∃ s out, sync (.matrix (r0 :: rest)) subs pred true margin =
          .written s out "utf-8") ∧
      (¬ npMin y < npMean y - npStd y →
        sync (.matrix (r0 :: rest)) subs pred true margin = .rejected) ∧
      (∃ s out, sync (.matrix (r0 :: rest)) subs pred false margin =
        .written s out "utf-8") := by
  have hlab : (labelsCore r0.length subs).length = r0.length :=
    labelsCore_length _ _
  have hll := logloss_eq pred (labelsCore r0.length subs) margin
    (by rw [hlab]; exact hlen) (by rw [hlab]; exact hN)
  refine ⟨_, _, hll, ?_, ?_, ?_⟩
  all_goals
    have hyne : ((offsetList (secondsToBlocks margin).toNat).map
        (fun off => bceVal
          (coreSlice (secondsToBlocks margin).toNat
            (roll off (labelsCore r0.length subs)))
          (coreSlice (secondsToBlocks margin).toNat pred))).length ≠ 0 := by
      simp only [List.length_map, offsetList, List.length_range]
      omega
  · intro hgate
    exact ⟨_, _, by
      rw [sync_matrix, syncCore_eq _ _ _ _ _ _ _ hll,
        syncGate_written _ _ _ _ hyne (Or.inr hgate)]⟩
  · intro hrej
    rw [sync_matrix, syncCore_eq _ _ _ _ _ _ _ hll,
      syncGate_rejected _ _ _ hyne hrej]
  · exact ⟨_, _, by
      rw [sync_matrix, syncCore_eq _ _ _ _ _ _ _ hll,
        syncGate_written _ _ _ _ hyne (Or.inl rfl)]⟩

/-- C3: whenever Subtitle.sync accepts (safe disabled, or the gate open),
the applied shift in seconds is blocksToSeconds of the winning offset,
where the winning offset sits at index np.argmin of the loss curve, the
loss there is the global minimum, every strictly earlier index carries a
strictly larger loss (ties break toward the earliest offset in the order
from most negative to most positive), every subtitle timestamp is shifted
by exactly that many seconds, and the file is written with encoding utf-8
independent of the fixed legacy read encoding. -/
theorem claim3 (r0 : List ℝ) (rest : List (List ℝ)) (subs : List SubEntry)
    (pred : List ℝ) (safe : Bool) (margin : ℚ)
    (hlen : pred.length = r0.length)
    (hb : 1 ≤ (secondsToBlocks margin).toNat)
    (hN : 2 * (secondsToBlocks margin).toNat < r0.length) :
    ∃ x y, logloss pred (labelsCore r0.length subs) margin = some (x, y) ∧
      ((safe = false ∨ npMin y < npMean y - npStd y) →
        ∃ off : ℤ, x[npArgmin y]? = some off ∧
          off = -(((secondsToBlocks margin).toNat : ℤ)) + (npArgmin y : ℤ) ∧
          y[npArgmin y]? = some (npMin y) ∧
          (∀ v ∈ y, npMin y ≤ v) ∧
          (∀ i, i < npArgmin y → ∀ v, y[i]? = some v → npMin y < v) ∧
          sync (.matrix (r0 :: rest)) subs pred safe margin =
            .written (blocksToSeconds ((off : ℤ) : ℚ))
              (subs.map (fun e =>
                ⟨timeToSec e.start + blocksToSeconds ((off : ℤ) : ℚ),
                 timeToSec e.stop + blocksToSeconds ((off : ℤ) : ℚ)⟩))
              "utf-8") := by
  have hlab : (labelsCore r0.length subs).length = r0.length :=
    labelsCore_length _ _
  have hll := logloss_eq pred (labelsCore r0.length subs) margin
    (by rw [hlab]; exact hlen) (by rw [hlab]; exact hN)
  refine ⟨_, _, hll, ?_⟩
  intro hacc
  set y := (offsetList (secondsToBlocks margin).toNat).map
    (fun off => bceVal
      (coreSlice (secondsToBlocks margin).toNat
        (roll off (labelsCore r0.length subs)))
      (coreSlice (secondsToBlocks margin).toNat pred)) with hydef
  have hylen : y.length = 2 * (secondsToBlocks margin).toNat := by
    rw [hydef]
    simp only [List.length_map, offsetList, List.length_range]
  have hyne : y ≠ [] := by
    intro hcon
    rw [hcon] at hylen
    simp at hylen
    omega
  obtain ⟨hjlt, hjget, hmle, hfirst⟩ := npArgmin_spec y hyne
  have hxj : (offsetList (secondsToBlocks margin).toNat)[npArgmin y]? =
      some (-(((secondsToBlocks margin).toNat : ℤ)) + (npArgmin y : ℤ)) := by
    simp only [offsetList]
    rw [List.getElem?_map, List.getElem?_range (by omega)]
    rfl
  refine ⟨_, hxj, rfl, hjget, hmle, hfirst, ?_⟩
  have hgetD : (offsetList (secondsToBlocks margin).toNat).getD (npArgmin y) 0 =
      -(((secondsToBlocks margin).toNat : ℤ)) + (npArgmin y : ℤ) := by
    rw [List.getD_eq_getElem?_getD, hxj]
    rfl
  rw [sync_matrix, syncCore_eq _ _ _ _ _ _ _ hll,
    syncGate_written _ _ _ _ (by rw [hylen]; omega) hacc, hgetD]
  rfl

/-- C9: a subtitle file with zero entries yields the all zero label
sequence; every cyclic roll of it is itself, so the loss curve is constant,
the standard deviation is zero and the minimum equals the mean, hence
Subtitle.sync in safe mode completes without failing and rejects without
writing a file. -/
theorem claim9 (r0 : List ℝ) (rest : List (List ℝ)) (pred : List ℝ)
    (hlen : pred.length = r0.length)
    (hN : 750 < r0.length) :
    sync (.matrix (r0 :: rest)) [] pred true 12 = .rejected := by
  have hlab : labelsCore r0.length [] = List.replicate r0.length 0 := rfl
  have hll := logloss_eq pred (labelsCore r0.length []) 12
    (by rw [labelsCore_length]; exact hlen)
    (by rw [labelsCore_length, blocksOfTwelve]; omega)
  have hconst : ∀ off ∈ offsetList (secondsToBlocks 12).toNat,
      bceVal
        (coreSlice (secondsToBlocks 12).toNat
          (roll off (labelsCore r0.length [])))
        (coreSlice (secondsToBlocks 12).toNat pred) =
      bceVal
        (coreSlice (secondsToBlocks 12).toNat (List.replicate r0.length 0))
        (coreSlice (secondsToBlocks 12).toNat pred) := by
    intro off _
    rw [hlab, roll_replicate]
  have hy := map_eq_replicate _ _ _ hconst
  have hlen750 : (offsetList (secondsToBlocks 12).toNat).length = 750 := by
    simp only [offsetList, List.length_map, List.length_range, blocksOfTwelve]
  rw [sync_matrix, syncCore_eq _ _ _ _ _ _ _ hll, hy, hlen750]
  apply syncGate_rejected
  · rw [List.length_replicate]
    omega
  · rw [npMin_replicate _ 750 (by omega), npMean_replicate _ 750 (by omega),
      npStd_replicate _ 750 (by omega)]
    simp

/-- Witness for C6 at a concrete one frame matrix and empty track. -/
theorem claim6_witness :
    ∃ l, labelsRun (.matrix ([(0 : ℝ)] :: [])) [] = .ok l ∧
      l.length = ([(0 : ℝ)]).length ∧
      (∀ v ∈ l, v = 0 ∨ v = 1) ∧
      (∀ i, i < ([(0 : ℝ)]).length →
        (l[i]? = some 1 ↔
          ∃ sub ∈ ([] : List SubEntry), (timeToPos sub.start).toNat ≤ i ∧
            i < (timeToPos sub.stop).toNat + 1)) ∧
      (∀ i, ([(0 : ℝ)]).length ≤ i → l[i]? = none) :=
  claim6 [(0 : ℝ)] [] []

/-- Witness for C2 at a concrete input: margin 8/125 seconds (2 blocks) and
sequences of length 5. -/
theorem claim2_witness :
    (List.replicate 5 ((1 : ℝ) / 2)).length = (List.replicate 5 (0 : ℝ)).length ∧
    1 ≤ (secondsToBlocks (8 / 125)).toNat ∧
    2 * (secondsToBlocks (8 / 125)).toNat < (List.replicate 5 (0 : ℝ)).length ∧
    (∃ x y, logloss (List.replicate 5 ((1 : ℝ) / 2))
        (labelsCore (List.replicate 5 (0 : ℝ)).length []) (8 / 125) =
          some (x, y) ∧
      (npMin y < npMean y - npStd y →
        ∃ s out, sync (.matrix (List.replicate 5 (0 : ℝ) :: [])) []
          (List.replicate 5 ((1 : ℝ) / 2)) true (8 / 125) =
            .written s out "utf-8") ∧
      (¬ npMin y < npMean y - npStd y →
        sync (.matrix (List.replicate 5 (0 : ℝ) :: [])) []
          (List.replicate 5 ((1 : ℝ) / 2)) true (8 / 125) = .rejected) ∧
      (∃ s out, sync (.matrix (List.replicate 5 (0 : ℝ) :: [])) []
        (List.replicate 5 ((1 : ℝ) / 2)) false (8 / 125) =
          .written s out "utf-8")) :=
  ⟨rfl, by rw [blocksOfSmall]; decide, by rw [blocksOfSmall]; decide,
   claim2 _ _ _ _ _ rfl (by rw [blocksOfSmall]; decide)
     (by rw [blocksOfSmall]; decide)⟩

/-- Witness for C3 at a concrete input with safe disabled, under which
acceptance is unconditional. -/
theorem claim3_witness :
    (List.replicate 5 ((1 : ℝ) / 2)).length = (List.replicate 5 (0 : ℝ)).length ∧
    1 ≤ (secondsToBlocks (8 / 125)).toNat ∧
    2 * (secondsToBlocks (8 / 125)).toNat < (List.replicate 5 (0 : ℝ)).length ∧
    (∃ x y, logloss (List.replicate 5 ((1 : ℝ) / 2))
        (labelsCore (List.replicate 5 (0 : ℝ)).length []) (8 / 125) =
          some (x, y) ∧
      ((false = false ∨ npMin y < npMean y - npStd y) →
        ∃ off : ℤ, x[npArgmin y]? = some off ∧
          off = -(((secondsToBlocks (8 / 125)).toNat : ℤ)) + (npArgmin y : ℤ) ∧
          y[npArgmin y]? = some (npMin y) ∧
          (∀ v ∈ y, npMin y ≤ v) ∧
          (∀ i, i < npArgmin y → ∀ v, y[i]? = some v → npMin y < v) ∧
          sync (.matrix (List.replicate 5 (0 : ℝ) :: [])) []
            (List.replicate 5 ((1 : ℝ) / 2)) false (8 / 125) =
            .written (blocksToSeconds ((off : ℤ) : ℚ))
              (([] : List SubEntry).map (fun e =>
                ⟨timeToSec e.start + blocksToSeconds ((off : ℤ) : ℚ),
                 timeToSec e.stop + blocksToSeconds ((off : ℤ) : ℚ)⟩))
              "utf-8")) :=
  ⟨rfl, by rw [blocksOfSmall]; decide, by rw [blocksOfSmall]; decide,
   claim3 _ _ _ _ false _ rfl (by rw [blocksOfSmall]; decide)
     (by rw [blocksOfSmall]; decide)⟩

/-- Witness for C9: a 751 frame feature row, an empty subtitle list and the
default margin of 12 seconds. -/
theorem claim9_witness :
    (List.replicate 751 (0 : ℝ)).length = (List.replicate 751 (0 : ℝ)).length ∧
    750 < (List.replicate 751 (0 : ℝ)).length ∧
    sync (.matrix (List.replicate 751 (0 : ℝ) :: [])) []
      (List.replicate 751 (0 : ℝ)) true 12 = .rejected :=
  ⟨rfl, by norm_num, claim9 _ _ _ rfl (by norm_num)⟩

end Subsync
